import Mathlib

/-!
Shallow embedding of the asynchronous analysis gateway (FastAPI app under
`app/`): the JSON value model and the tolerant response parser
(`app/utils.py`), the admission handler (`app/main.py`, `analyze`), and the
worker dispatch/demultiplex loop body (`app/worker.py`, `worker_loop`).

Modelling conventions:
* machine time (`time.time()`, `time.monotonic()`) is passed in as a `Nat`;
* fresh request ids (`uuid.uuid4().hex`) are passed in as `String`s;
* the md5 fingerprint `_hash_text` is an uninterpreted parameter
  `hash : String → String` of the admission function;
* fallible upstream LLM calls are `Except String String`
  (error message or returned content);
* Python dicts holding the Store and the Cache are association lists;
* the JSON decoder models the subset of `json.loads` actually exercised
  here: null / booleans / integers / strings with simple escapes / arrays /
  objects.  Floats, exponents and unicode escapes are not modelled; no
  claim instance uses them.
-/

namespace AgentSpec

/-- JSON values as produced by `json.loads` (integer-only numbers). -/
inductive Json where
  | null : Json
  | bool : Bool → Json
  | num : Int → Json
  | str : String → Json
  | arr : List Json → Json
  | obj : List (String × Json) → Json


/-- Python truthiness of a decoded JSON value (`if rid:`, `parsed or ...`). -/
def jsonTruthy : Json → Bool
  | .null => false
  | .bool b => b
  | .num n => n != 0
  | .str s => s != ""
  | .arr l => !l.isEmpty
  | .obj l => !l.isEmpty

/-- Is the value a JSON object (a Python dict, which has an `.get` method)? -/
def Json.isObj : Json → Bool
  | .obj _ => true
  | _ => false

/-- Python `dict.get` on an object built by `json.loads`: with duplicate
keys the last binding wins, as in CPython's dict construction. -/
def jget (fields : List (String × Json)) (k : String) : Option Json :=
  ((fields.filter (fun p => p.1 = k)).getLast?).map Prod.snd

/-- JSON whitespace accepted by `json.loads`. -/
def isWsChar (c : Char) : Bool :=
  c = ' ' || c = '\n' || c = '\t' || c = '\r'

/-- Skip leading JSON whitespace. -/
def skipWs : List Char → List Char
  | [] => []
  | c :: cs => if isWsChar c then skipWs cs else c :: cs

/-- Body of a JSON string literal (after the opening quote), with the simple
escapes; returns the decoded string and the remaining input. -/
def parseStringBody : Nat → List Char → Option (String × List Char)
  | 0, _ => none
  | _, [] => none
  | fuel+1, c :: cs =>
    if c = '"' then some ("", cs)
    else if c = '\\' then
      match cs with
      | [] => none
      | e :: cs2 =>
        let d? : Option Char :=
          if e = '"' then some '"'
          else if e = '\\' then some '\\'
          else if e = '/' then some '/'
          else if e = 'n' then some '\n'
          else if e = 't' then some '\t'
          else if e = 'r' then some '\r'
          else none
        match d? with
        | some d =>
          (parseStringBody fuel cs2).map (fun p => (String.mk (d :: p.1.data), p.2))
        | none => none
    else (parseStringBody fuel cs).map (fun p => (String.mk (c :: p.1.data), p.2))

/-- Maximal run of decimal digits. -/
def takeDigits : List Char → (List Char × List Char)
  | [] => ([], [])
  | c :: cs =>
    if c.isDigit then
      let p := takeDigits cs
      (c :: p.1, p.2)
    else ([], c :: cs)

/-- Digits to a natural number. -/
def digitsToNat (ds : List Char) : Nat :=
  ds.foldl (fun acc c => acc * 10 + (c.toNat - 48)) 0

/-- Would the rest of a number literal make it a float or exponent
(not modelled)? -/
def isFloatCont : List Char → Bool
  | [] => false
  | c :: _ => c = '.' || c = 'e' || c = 'E'

mutual

/-- One JSON value, leading whitespace allowed; returns the remaining input. -/
def parseVal : Nat → List Char → Option (Json × List Char)
  | 0, _ => none
  | fuel+1, cs0 =>
    match skipWs cs0 with
    | 'n' :: 'u' :: 'l' :: 'l' :: rest => some (.null, rest)
    | 't' :: 'r' :: 'u' :: 'e' :: rest => some (.bool true, rest)
    | 'f' :: 'a' :: 'l' :: 's' :: 'e' :: rest => some (.bool false, rest)
    | '"' :: rest => (parseStringBody fuel rest).map (fun p => (.str p.1, p.2))
    | '[' :: rest =>
      (match skipWs rest with
       | ']' :: rest2 => some (.arr [], rest2)
       | other => (parseArrTail fuel other).map (fun p => (.arr p.1, p.2)))
    | '\x7b' :: rest =>
      (match skipWs rest with
       | '\x7d' :: rest2 => some (.obj [], rest2)
       | other => (parseObjTail fuel other).map (fun p => (.obj p.1, p.2)))
    | '-' :: rest =>
      (match takeDigits rest with
       | ([], _) => none
       | (ds, rest2) =>
         if isFloatCont rest2 then none
         else some (.num (-(digitsToNat ds : Int)), rest2))
    | c :: rest =>
      if c.isDigit then
        (match takeDigits (c :: rest) with
         | ([], _) => none
         | (ds, rest2) =>
           if isFloatCont rest2 then none
           else some (.num (digitsToNat ds : Int), rest2))
      else none
    | [] => none

/-- Elements of a non-empty JSON array, up to and including the closing
bracket. -/
def parseArrTail : Nat → List Char → Option (List Json × List Char)
  | 0, _ => none
  | fuel+1, cs =>
    match parseVal fuel cs with
    | none => none
    | some (v, rest) =>
      match skipWs rest with
      | ',' :: rest2 => (parseArrTail fuel rest2).map (fun p => (v :: p.1, p.2))
      | ']' :: rest2 => some ([v], rest2)
      | _ => none

/-- Members of a non-empty JSON object, up to and including the closing
brace. -/
def parseObjTail : Nat → List Char → Option (List (String × Json) × List Char)
  | 0, _ => none
  | fuel+1, cs =>
    match skipWs cs with
    | '"' :: rest =>
      (match parseStringBody fuel rest with
       | none => none
       | some (k, rest2) =>
         match skipWs rest2 with
         | ':' :: rest3 =>
           (match parseVal fuel rest3 with
            | none => none
            | some (v, rest4) =>
              match skipWs rest4 with
              | ',' :: rest5 =>
                (parseObjTail fuel rest5).map (fun p => ((k, v) :: p.1, p.2))
              | '\x7d' :: rest5 => some ([(k, v)], rest5)
              | _ => none)
         | _ => none)
    | _ => none

end

/-- `json.loads`: decode one JSON document; trailing non-whitespace input is
an error ("Extra data"), any decode failure is `none` (an exception in the
source, always caught by the callers modelled here). -/
def json_loads (s : String) : Option Json :=
  match parseVal (2 * s.length + 8) s.data with
  | some (v, rest) => if (skipWs rest).isEmpty then some v else none
  | none => none

/-- Index of the last occurrence of `c` in `cs` (used to model the greedy
`.*` of the fallback regex). -/
def lastPos (c : Char) : List Char → Option Nat
  | [] => none
  | a :: rest =>
    match lastPos c rest with
    | some j => some (j + 1)
    | none => if a = c then some 0 else none

/-- One attempt of the regex `(\x7b.*\x7d|\[.*\])` (DOTALL) at position `i`:
the first alternative needs an opening brace at `i` and some closing brace
later (greedy `.*` takes the last one); otherwise the bracket alternative.
Returns the inclusive end index of the match. -/
def matchAt (cs : List Char) (i : Nat) : Option Nat :=
  match cs.get? i with
  | some c =>
    if c = '\x7b' then (lastPos '\x7d' (cs.drop (i + 1))).map (fun j => i + 1 + j)
    else if c = '[' then (lastPos ']' (cs.drop (i + 1))).map (fun j => i + 1 + j)
    else none
  | none => none

/-- `re.search` scanning: try `matchAt` at `i`, `i+1`, ... (leftmost match
wins). `fuel` bounds the scan; it is started at the string length. -/
def searchFrom (cs : List Char) : Nat → Nat → Option (Nat × Nat)
  | _, 0 => none
  | i, fuel+1 =>
    match matchAt cs i with
    | some j => some (i, j)
    | none => searchFrom cs (i + 1) fuel

/-- `re.search(r"(\x7b.*\x7d|\[.*\])", s, flags=re.DOTALL)`: the leftmost,
greedy match, as a pair of inclusive start/end indices. -/
def searchGreedy (cs : List Char) : Option (Nat × Nat) :=
  searchFrom cs 0 cs.length

/-- The substring at inclusive index span `[i, j]`. -/
def sliceStr (cs : List Char) (i j : Nat) : String :=
  String.mk ((cs.drop i).take (j - i + 1))

/-- `app/utils.py`, `extract_json_from_text`: try a direct decode; on
failure search for the regex block and decode that; `None` on any failure. -/
def extract_json_from_text (s : String) : Option Json :=
  match json_loads s with
  | some v => some v
  | none =>
    match searchGreedy s.data with
    | some (i, j) => json_loads (sliceStr s.data i j)
    | none => none

/-- Matching closer for a balanced span: scanning the characters after an
opener (depth 0), return the absolute index of the closer that balances it.
`pos` is the absolute index of the head character. -/
def balancedClose (op cl : Char) : List Char → Nat → Nat → Option Nat
  | [], _, _ => none
  | c :: cs, depth, pos =>
    if c = cl then
      if depth = 0 then some pos else balancedClose op cl cs (depth - 1) (pos + 1)
    else if c = op then balancedClose op cl cs (depth + 1) (pos + 1)
    else balancedClose op cl cs depth (pos + 1)

/-- Balanced span starting exactly at `i`, if `i` is an opening delimiter
with a balancing closer. -/
def balancedAt (cs : List Char) (i : Nat) : Option Nat :=
  match cs.get? i with
  | some c =>
    if c = '\x7b' then balancedClose '\x7b' '\x7d' (cs.drop (i + 1)) 0 (i + 1)
    else if c = '[' then balancedClose '[' ']' (cs.drop (i + 1)) 0 (i + 1)
    else none
  | none => none

/-- First balanced delimiter span of the string, scanning left to right. -/
def firstBalancedFrom (cs : List Char) : Nat → Nat → Option (Nat × Nat)
  | _, 0 => none
  | i, fuel+1 =>
    match balancedAt cs i with
    | some j => some (i, j)
    | none => firstBalancedFrom cs (i + 1) fuel

/-- First balanced `\x7b...\x7d` or `[...]` span. -/
def firstBalancedSpan (cs : List Char) : Option (Nat × Nat) :=
  firstBalancedFrom cs 0 cs.length

/-- Spec-side parser, following the spec's words (not the source): "first
try a direct structured decode; on failure, locate the first balanced
`\x7b...\x7d` or `[...]` span and decode that", with "a balanced-delimiter
scanner that accepts the first fully balanced span".  Stated only to be
compared against the source's `extract_json_from_text`. -/
def extract_json_spec (s : String) : Option Json :=
  match json_loads s with
  | some v => some v
  | none =>
    match firstBalancedSpan s.data with
    | some (i, j) => json_loads (sliceStr s.data i j)
    | none => none

example : json_loads "\x7b\"a\": 1\x7d" = some (Json.obj [("a", Json.num 1)]) := rfl
example : json_loads "[\"k\", -2]" = some (Json.arr [Json.str "k", Json.num (-2)]) := rfl
example : json_loads "x \x7b\"a\": 1\x7d" = none := rfl
example : extract_json_from_text "x \x7b\"a\": 1\x7d y" = some (Json.obj [("a", Json.num 1)]) := rfl
example : extract_json_from_text "x \x7b\"a\": 1\x7d y \x7b\"b\": 2\x7d" = none := rfl
example : extract_json_spec "x \x7b\"a\": 1\x7d y \x7b\"b\": 2\x7d"
    = some (Json.obj [("a", Json.num 1)]) := rfl

/-- A lifecycle record in the Request Store (`app.state.store[rid]`).
The admission handler creates it with `error = none`; the worker's error
paths add the `error` field. -/
structure LifeRec where
  status : String
  queued_at : Nat
  finished_at : Option Nat
  result : Option Json
  error : Option String

/-- The Request Store: Python dict from request id to record, as an
association list with unique keys (ids are fresh uuid hexes). -/
abbrev Store := List (String × LifeRec)

/-- Dict lookup (`store.get(rid)` / `store[rid]`). -/
def lookupRec : Store → String → Option LifeRec
  | [], _ => none
  | p :: rest, r => if p.1 = r then some p.2 else lookupRec rest r

/-- Dict membership (`rid in store`). -/
def hasKey : Store → String → Bool
  | [], _ => false
  | p :: rest, r => p.1 = r || hasKey rest r

/-- In-place mutation of the record under key `r` (`store[rid][...] = ...`);
a key that is absent is left alone (the source would raise `KeyError`
there, but every id it uses was admitted and so is present). -/
def updateRec : Store → String → (LifeRec → LifeRec) → Store
  | [], _, _ => []
  | p :: rest, r, f => (if p.1 = r then (p.1, f p.2) else p) :: updateRec rest r f

/-- A queued work item (the payload built at `app/main.py:134`). -/
structure Item where
  id : String
  text : String
  submitted_at : Nat
  cache_key : String
deriving DecidableEq

/-- The Result Cache: fingerprint key to stored analysis object.  TTL
expiry is not modelled; a cache state is always the view at the moment of
the operation. -/
abbrev CacheMap := List (String × Json)

/-- `cache.get(key)`. -/
def cacheGet : CacheMap → String → Option Json
  | [], _ => none
  | p :: rest, k => if p.1 = k then some p.2 else cacheGet rest k

/-- The module-level mutable state of the app: Store, Queue, Cache. -/
structure SysState where
  store : Store
  queue : List Item
  cache : CacheMap

/-- `POST /analyze` request body. -/
structure AnalyzeRequest where
  title : Option String
  abstract : Option String
  text : Option String
  url : Option String
deriving DecidableEq

/-- Outcome of the `analyze` handler. -/
inductive AnalyzeResp where
  /-- HTTP 400, "No text provided in request". -/
  | emptyInput : AnalyzeResp
  /-- HTTP 429, overloaded. -/
  | overloaded : AnalyzeResp
  /-- `{request_id, status: "done", cached: true}`. -/
  | doneCached (request_id : String) : AnalyzeResp
  /-- `{request_id, status: "queued"}`. -/
  | accepted (request_id : String) : AnalyzeResp
deriving DecidableEq

/-- One optional part of the text blob: included iff the field is present
and non-empty (Python truthiness of an optional string). -/
def optPart (pre : String) (o : Option String) : List String :=
  match o with
  | some s => if s = "" then [] else [pre ++ s]
  | none => []

/-- Python `str.strip()` on the blob (whitespace at both ends; modelled
over the character list because `String.trim` does not reduce
definitionally). -/
def pyStrip (s : String) : String :=
  String.mk (((s.data.dropWhile isWsChar).reverse.dropWhile isWsChar).reverse)

/-- `app/main.py:89-98`: concatenate the non-empty fields with blank-line
separators and strip. -/
def text_blob (req : AnalyzeRequest) : String :=
  pyStrip (String.intercalate "\n\n"
    (optPart "Title: " req.title ++ optPart "Abstract: " req.abstract ++
     optPart "" req.text ++ optPart "URL: " req.url))

/-- `int(MAX_QUEUE_SIZE * BACKPRESSURE_THRESHOLD)`: the threshold is the
rational `rhoN / rhoD` (9/10 for the default 0.9); truncating the
non-negative product is taking its floor, which over the integers is
`maxQ * rhoN / rhoD`.  (Binary floating-point rounding of the Python
product is not modelled.) -/
def admitThreshold (maxQ rhoN rhoD : Nat) : Nat :=
  maxQ * rhoN / rhoD

/-- The computed threshold is the floor of the product named by the spec. -/
theorem admitThreshold_eq_floor (maxQ rhoN rhoD : Nat) :
    admitThreshold maxQ rhoN rhoD = ⌊(maxQ : Rat) * ((rhoN : Rat) / (rhoD : Rat))⌋₊ := by
  unfold admitThreshold
  rw [mul_div_assoc']
  rw [show ((maxQ : Rat) * (rhoN : Rat)) = ((maxQ * rhoN : Nat) : Rat) by push_cast; ring]
  rw [Nat.floor_div_nat, Nat.floor_natCast]

/-- `app/main.py`, `analyze` (lines 80-138): admission control.  `hash`
stands for the md5 hex digest `_hash_text`, `rid` for the fresh
`uuid4().hex`, `now` for `time.time()`. -/
def analyze (hash : String → String) (maxQ rhoN rhoD : Nat)
    (req : AnalyzeRequest) (rid : String) (now : Nat) (s : SysState) :
    AnalyzeResp × SysState :=
  let blob := text_blob req
  if blob = "" then (.emptyInput, s)
  else
    let ckey := "analyze:" ++ hash blob
    match cacheGet s.cache ckey with
    | some v =>
      (.doneCached rid,
        { s with store := (rid, ⟨"done", now, some now, some v, none⟩) :: s.store })
    | none =>
      if s.queue.length ≥ admitThreshold maxQ rhoN rhoD then (.overloaded, s)
      else
        (.accepted rid,
          { s with
              store := (rid, ⟨"queued", now, none, none, none⟩) :: s.store,
              queue := s.queue ++ [⟨rid, blob, now, ckey⟩] })

/-- `store[rid]["status"] = "done"; store[rid]["result"] = obj;
store[rid]["finished_at"] = time.time()` — the worker's done-write. -/
def markDoneRec (rc : LifeRec) (res : Json) (now : Nat) : LifeRec :=
  { rc with status := "done", result := some res, finished_at := some now }

/-- `store[rid]["status"] = "error"; store[rid]["error"] = str(e)` — the
worker's error-write.  Note: the source sets no `finished_at` here. -/
def markErrorRec (rc : LifeRec) (msg : String) : LifeRec :=
  { rc with status := "error", error := some msg }

/-- The id a parsed batch element writes under: present iff the element is
an object whose `id` value is a truthy (`if rid`) string.  `elemId` covers
only the non-raising outcomes of `worker.py:40`: a truthy number or
boolean id is hashable and simply fails the `rid in store` test (the Store
keys are strings), so it never writes; a truthy list or dict id instead
makes `rid in store` raise `TypeError` — that raising path is NOT a skip
and is modelled separately in `matchedStep`. -/
def elemId (o : Json) : Option String :=
  match o with
  | .obj fields =>
    match jget fields "id" with
    | some v =>
      if jsonTruthy v then
        match v with
        | .str r => some r
        | _ => none
      else none
    | none => none
  | _ => none

/-- Whether `worker.py:39-40` get through the element without raising: the
element must be a dict (else `obj.get` raises `AttributeError`), and its
`id` value, when truthy, must not be a list or dict (else `rid in store`
raises `TypeError: unhashable type`).  A falsy (empty) list or dict id is
fine: `if rid and ...` short-circuits before the `in` test. -/
def elemOk : Json → Bool
  | .obj fields =>
    match jget fields "id" with
    | some v =>
      if jsonTruthy v then
        match v with
        | .arr _ => false
        | .obj _ => false
        | _ => true
      else true
    | none => true
  | _ => false

/-- `app/worker.py:38-43`, one element of a well-sized parsed array:
`rid = obj.get("id"); if rid and rid in store:` then the done-write. -/
def matchedWrite (now : Nat) (st : Store) (o : Json) : Store :=
  match elemId o with
  | some r => if hasKey st r then updateRec st r (fun rc => markDoneRec rc o now) else st
  | none => st

/-- The element step with its exception behaviour: `obj.get` on a non-dict
raises `AttributeError`, and `rid in store` with a truthy unhashable id (a
non-empty list or dict) raises `TypeError`; either exception is caught by
the enclosing `try`, which then marks the whole batch as error. -/
def matchedStep (now : Nat) (st : Store) : Json → Except String Store
  | .obj fields =>
    (match jget fields "id" with
     | some v =>
       if jsonTruthy v then
         match v with
         | .arr _ => .error "TypeError: unhashable type: list"
         | .obj _ => .error "TypeError: unhashable type: dict"
         | _ => .ok (matchedWrite now st (.obj fields))
       else .ok (matchedWrite now st (.obj fields))
     | none => .ok (matchedWrite now st (.obj fields)))
  | _ => .error "AttributeError: object has no attribute get"

/-- The `for obj in parsed:` loop: write each matched element; an
`AttributeError` or `TypeError` aborts the loop, keeping the writes made
so far and carrying the message to the outer handler. -/
def processMatched (now : Nat) (parsed : List Json) (st : Store) :
    Store × Option String :=
  match parsed with
  | [] => (st, none)
  | o :: rest =>
    match matchedStep now st o with
    | .ok st2 => processMatched now rest st2
    | .error e => (st, some e)

/-- `parsed_single or {"raw": out}`: the stored result of a per-item
fallback call — the parsed value when it is truthy, else the raw wrapper. -/
def fallbackResult (out : String) : Json :=
  match extract_json_from_text out with
  | some v => if jsonTruthy v then v else Json.obj [("raw", Json.str out)]
  | none => Json.obj [("raw", Json.str out)]

/-- The record transformation of one per-item fallback (`app/worker.py:46-55`):
a successful single call ends in the done-write, a failed one in the
error-write. -/
def fallbackRec (singleCall : Item → Except String String) (now : Nat)
    (b : Item) (rc : LifeRec) : LifeRec :=
  match singleCall b with
  | .ok out => markDoneRec rc (fallbackResult out) now
  | .error e => markErrorRec rc e

/-- One iteration of the per-item fallback loop. -/
def fallbackStep (singleCall : Item → Except String String) (now : Nat)
    (st : Store) (b : Item) : Store :=
  updateRec st b.id (fallbackRec singleCall now b)

/-- `app/worker.py:56-60`: mark every batch item as error with the
upstream message. -/
def markAllError (batch : List Item) (msg : String) (st : Store) : Store :=
  batch.foldl (fun s b => updateRec s b.id (fun rc => markErrorRec rc msg)) st

/-- `app/worker.py:32-60`: the dispatch-and-demultiplex body of
`worker_loop` for one collected batch.  `batchCall` is the outcome of
`call_groq_batch` (its single content string, or the exception message),
`singleCall` the outcome of `call_groq_single` per item, `now` the value
of `time.time()` for this iteration's writes.  Note that no path touches
the Cache: the worker module never references it. -/
def processBatch : List Item → Except String String →
    (Item → Except String String) → Nat → Store → Store
  | batch, .error e, _, _, st => markAllError batch e st
  | batch, .ok content, singleCall, now, st =>
    match extract_json_from_text content with
    | some (Json.arr parsed) =>
      if parsed.length = batch.length then
        match processMatched now parsed st with
        | (st2, none) => st2
        | (st2, some e) => markAllError batch e st2
      else batch.foldl (fallbackStep singleCall now) st
    | _ => batch.foldl (fallbackStep singleCall now) st

/-! ### Association-list (dict) lemmas -/

theorem lookupRec_updateRec_self (st : Store) (r : String) (f : LifeRec → LifeRec) :
    lookupRec (updateRec st r f) r = (lookupRec st r).map f := by
  induction st with
  | nil => rfl
  | cons p rest ih =>
    by_cases h : p.1 = r
    · simp [updateRec, lookupRec, h]
    · simp [updateRec, lookupRec, h, ih]

theorem lookupRec_updateRec_ne (st : Store) (q r : String) (f : LifeRec → LifeRec)
    (h : q ≠ r) : lookupRec (updateRec st q f) r = lookupRec st r := by
  induction st with
  | nil => rfl
  | cons p rest ih =>
    by_cases hp : p.1 = q
    · have : p.1 ≠ r := hp ▸ h
      simp [updateRec, lookupRec, hp, this, ih, h]
    · by_cases hr : p.1 = r
      · simp [updateRec, lookupRec, hp, hr, Ne.symm h]
      · simp [updateRec, lookupRec, hp, hr, ih]

theorem hasKey_updateRec (st : Store) (q r : String) (f : LifeRec → LifeRec) :
    hasKey (updateRec st q f) r = hasKey st r := by
  induction st with
  | nil => rfl
  | cons p rest ih =>
    by_cases hp : p.1 = q
    · simp [updateRec, hasKey, hp, ih]
    · simp [updateRec, hasKey, hp, ih]

theorem keys_updateRec (st : Store) (r : String) (f : LifeRec → LifeRec) :
    (updateRec st r f).map Prod.fst = st.map Prod.fst := by
  induction st with
  | nil => rfl
  | cons p rest ih =>
    by_cases hp : p.1 = r
    · simp [updateRec, hp, ih]
    · simp [updateRec, hp, ih]

theorem lookupRec_eq_none_of_hasKey_false (st : Store) (r : String)
    (h : hasKey st r = false) : lookupRec st r = none := by
  induction st with
  | nil => rfl
  | cons p rest ih =>
    simp [hasKey] at h
    simp [lookupRec, h.1, ih h.2]

theorem updateRec_comm (st : Store) (q r : String) (f g : LifeRec → LifeRec)
    (h : q ≠ r) :
    updateRec (updateRec st q f) r g = updateRec (updateRec st r g) q f := by
  induction st with
  | nil => rfl
  | cons p rest ih =>
    by_cases hq : p.1 = q
    · have hr : p.1 ≠ r := hq ▸ h
      simp [updateRec, hq, hr, ih, h]
    · by_cases hr : p.1 = r
      · simp [updateRec, hq, hr, ih, Ne.symm h]
      · simp [updateRec, hq, hr, ih]

/-! ### Worker-write lemmas -/

theorem markDoneRec_markDoneRec (rc : LifeRec) (o o2 : Json) (n n2 : Nat) :
    markDoneRec (markDoneRec rc o n) o2 n2 = markDoneRec rc o2 n2 := rfl

theorem matchedWrite_of_elemId_none (now : Nat) (st : Store) (o : Json)
    (h : elemId o = none) : matchedWrite now st o = st := by
  simp [matchedWrite, h]

theorem lookupRec_matchedWrite_self (now : Nat) (st : Store) (o : Json) (r : String)
    (h : elemId o = some r) :
    lookupRec (matchedWrite now st o) r
      = (lookupRec st r).map (fun rc => markDoneRec rc o now) := by
  unfold matchedWrite
  rw [h]
  by_cases hk : hasKey st r
  · simp [hk, lookupRec_updateRec_self]
  · simp [hk, lookupRec_eq_none_of_hasKey_false st r (by simpa using hk)]

theorem lookupRec_matchedWrite_other (now : Nat) (st : Store) (o : Json) (r : String)
    (h : elemId o ≠ some r) :
    lookupRec (matchedWrite now st o) r = lookupRec st r := by
  unfold matchedWrite
  match he : elemId o with
  | none => rfl
  | some q =>
    have hqr : q ≠ r := by
      intro hqr
      exact h (hqr ▸ he)
    by_cases hk : hasKey st q
    · simp [hk, lookupRec_updateRec_ne st q r _ hqr]
    · simp [hk]

theorem hasKey_matchedWrite (now : Nat) (st : Store) (o : Json) (r : String) :
    hasKey (matchedWrite now st o) r = hasKey st r := by
  unfold matchedWrite
  match elemId o with
  | none => rfl
  | some q =>
    by_cases hk : hasKey st q
    · simp [hk, hasKey_updateRec]
    · simp [hk]

theorem keys_matchedWrite (now : Nat) (st : Store) (o : Json) :
    (matchedWrite now st o).map Prod.fst = st.map Prod.fst := by
  unfold matchedWrite
  match elemId o with
  | none => rfl
  | some q =>
    by_cases hk : hasKey st q
    · simp [hk, keys_updateRec]
    · simp [hk]

/-! ### The matched-element loop: last write wins -/

/-- The last element of the parsed array that writes under id `r`. -/
def lastMatch (r : String) : List Json → Option Json
  | [] => none
  | o :: rest =>
    match lastMatch r rest with
    | some o2 => some o2
    | none => if elemId o = some r then some o else none

theorem foldl_matchedWrite_lookup (now : Nat) (parsed : List Json) (st : Store)
    (r : String) :
    lookupRec (parsed.foldl (matchedWrite now) st) r
      = match lastMatch r parsed with
        | some o => (lookupRec st r).map (fun rc => markDoneRec rc o now)
        | none => lookupRec st r := by
  induction parsed generalizing st with
  | nil => rfl
  | cons o rest ih =>
    simp only [List.foldl_cons]
    rw [ih (matchedWrite now st o)]
    match hm : lastMatch r rest with
    | some o2 =>
      simp only [lastMatch, hm]
      by_cases he : elemId o = some r
      · rw [lookupRec_matchedWrite_self now st o r he]
        cases lookupRec st r with
        | none => rfl
        | some rc => simp [markDoneRec_markDoneRec]
      · rw [lookupRec_matchedWrite_other now st o r he]
    | none =>
      simp only [lastMatch, hm]
      by_cases he : elemId o = some r
      · rw [he, lookupRec_matchedWrite_self now st o r he]
        simp
      · rw [lookupRec_matchedWrite_other now st o r he]
        simp [he]

theorem foldl_matchedWrite_keys (now : Nat) (parsed : List Json) (st : Store) :
    (parsed.foldl (matchedWrite now) st).map Prod.fst = st.map Prod.fst := by
  induction parsed generalizing st with
  | nil => rfl
  | cons o rest ih => rw [List.foldl_cons, ih, keys_matchedWrite]

/-- On a non-raising element the step is the plain write. -/
theorem matchedStep_ok_of_elemOk (now : Nat) (st : Store) (o : Json)
    (h : elemOk o = true) :
    matchedStep now st o = .ok (matchedWrite now st o) := by
  match o with
  | .null => simp [elemOk] at h
  | .bool b => simp [elemOk] at h
  | .num n => simp [elemOk] at h
  | .str t => simp [elemOk] at h
  | .arr l => simp [elemOk] at h
  | .obj fields =>
    unfold elemOk at h
    revert h
    simp only [matchedStep]
    cases hj : jget fields "id" with
    | none => intro h; rfl
    | some v =>
      intro h
      simp only at h ⊢
      by_cases ht : jsonTruthy v
      · rw [if_pos ht] at h ⊢
        match v, h with
        | .null, h => rfl
        | .bool b, h => rfl
        | .num n, h => rfl
        | .str r, h => rfl
        | .arr l, h => exact Bool.noConfusion h
        | .obj f, h => exact Bool.noConfusion h
      · rw [if_neg ht] at h ⊢

/-- Any non-raising outcome of the step is the plain write. -/
theorem matchedStep_ok_eq (now : Nat) (st : Store) (o : Json) (st2 : Store)
    (h : matchedStep now st o = .ok st2) : st2 = matchedWrite now st o := by
  match o with
  | .null => exact Except.noConfusion h
  | .bool b => exact Except.noConfusion h
  | .num n => exact Except.noConfusion h
  | .str t => exact Except.noConfusion h
  | .arr l => exact Except.noConfusion h
  | .obj fields =>
    revert h
    simp only [matchedStep]
    cases hj : jget fields "id" with
    | none => intro h; exact (Except.ok.inj h).symm
    | some v =>
      intro h
      simp only at h
      by_cases ht : jsonTruthy v
      · rw [if_pos ht] at h
        match v, h with
        | .null, h => exact (Except.ok.inj h).symm
        | .bool b, h => exact (Except.ok.inj h).symm
        | .num n, h => exact (Except.ok.inj h).symm
        | .str r, h => exact (Except.ok.inj h).symm
        | .arr l2, h => exact Except.noConfusion h
        | .obj f, h => exact Except.noConfusion h
      · rw [if_neg ht] at h
        exact (Except.ok.inj h).symm

/-- When no parsed element raises, the loop is the plain fold of the
per-element write. -/
theorem processMatched_eq_foldl (now : Nat) (parsed : List Json) (st : Store)
    (hok : ∀ o ∈ parsed, elemOk o = true) :
    processMatched now parsed st = (parsed.foldl (matchedWrite now) st, none) := by
  induction parsed generalizing st with
  | nil => rfl
  | cons o rest ih =>
    have ho : elemOk o = true := hok o (List.mem_cons_self o rest)
    simp only [processMatched, matchedStep_ok_of_elemOk now st o ho,
      List.foldl_cons]
    exact ih _ (fun x hx => hok x (List.mem_cons_of_mem _ hx))

/-- The store component of the matched loop, with or without an abort,
preserves the key set, and on abort the partial store also does. -/
theorem processMatched_keys (now : Nat) (parsed : List Json) (st : Store) :
    (processMatched now parsed st).1.map Prod.fst = st.map Prod.fst := by
  induction parsed generalizing st with
  | nil => rfl
  | cons o rest ih =>
    simp only [processMatched]
    match hs : matchedStep now st o with
    | .ok st2 =>
      have hkeys : st2.map Prod.fst = st.map Prod.fst := by
        rw [matchedStep_ok_eq now st o st2 hs]
        exact keys_matchedWrite now st o
      rw [ih st2, hkeys]
    | .error e => rfl

/-- A fold whose step commutes on the elements of the list is invariant
under permutation of the list. -/
theorem foldl_perm_of_comm {α β : Type} {f : β → α → β} {l l' : List α}
    (p : l.Perm l')
    (comm : ∀ x ∈ l, ∀ y ∈ l, ∀ z : β, f (f z x) y = f (f z y) x) :
    ∀ b : β, l.foldl f b = l'.foldl f b := by
  induction p with
  | nil => intro b; rfl
  | cons a _ ih =>
    intro b
    simp only [List.foldl_cons]
    exact ih
      (fun x hx y hy z =>
        comm x (List.mem_cons_of_mem a hx) y (List.mem_cons_of_mem a hy) z) (f b a)
  | swap a b l =>
    intro z
    simp only [List.foldl_cons]
    rw [comm b (by simp) a (by simp) z]
  | trans p1 p2 ih1 ih2 =>
    intro b
    refine (ih1 comm b).trans (ih2 ?_ b)
    intro x hx y hy z
    exact comm x (p1.mem_iff.mpr hx) y (p1.mem_iff.mpr hy) z

/-- Two matched-element writes under different (or absent) ids commute. -/
theorem matchedWrite_comm (now : Nat) (st : Store) (o1 o2 : Json)
    (h : ∀ r : String, ¬(elemId o1 = some r ∧ elemId o2 = some r)) :
    matchedWrite now (matchedWrite now st o1) o2
      = matchedWrite now (matchedWrite now st o2) o1 := by
  match h1 : elemId o1, h2 : elemId o2 with
  | none, _ =>
    rw [matchedWrite_of_elemId_none now st o1 h1,
      matchedWrite_of_elemId_none now _ o1 h1]
  | some r1, none =>
    rw [matchedWrite_of_elemId_none now st o2 h2,
      matchedWrite_of_elemId_none now _ o2 h2]
  | some r1, some r2 =>
    have hne : r1 ≠ r2 := by
      intro hEq
      exact h r1 ⟨h1, by rw [h2, hEq]⟩
    show matchedWrite now (matchedWrite now st o1) o2
      = matchedWrite now (matchedWrite now st o2) o1
    unfold matchedWrite
    rw [h1, h2]
    by_cases k1 : hasKey st r1
    · by_cases k2 : hasKey st r2
      · simp only [k1, k2, if_pos, hasKey_updateRec, updateRec_comm st r1 r2 _ _ hne]
      · simp only [k1, k2, if_pos, if_neg, hasKey_updateRec, Bool.false_eq_true,
          if_false]
    · by_cases k2 : hasKey st r2
      · simp only [k1, k2, hasKey_updateRec, Bool.false_eq_true, if_false, if_pos]
      · simp only [k1, k2, Bool.false_eq_true, if_false]

/-! ### Per-item fallback and batch-error loop lemmas -/

/-- Generic form of the worker's per-item loops: each iteration mutates
only the record under its own item's id. -/
theorem foldl_updateRec_lookup_of_notmem (g : Item → LifeRec → LifeRec)
    (batch : List Item) (st : Store) (r : String)
    (h : ∀ x ∈ batch, x.id ≠ r) :
    lookupRec (batch.foldl (fun s x => updateRec s x.id (g x)) st) r
      = lookupRec st r := by
  induction batch generalizing st with
  | nil => rfl
  | cons a rest ih =>
    rw [List.foldl_cons, ih _ (fun x hx => h x (List.mem_cons_of_mem a hx))]
    exact lookupRec_updateRec_ne st a.id r _ (h a (List.mem_cons_self a rest))

theorem foldl_updateRec_lookup (g : Item → LifeRec → LifeRec)
    (batch : List Item) (st : Store) (b : Item)
    (hnd : (batch.map Item.id).Nodup) (hb : b ∈ batch) :
    lookupRec (batch.foldl (fun s x => updateRec s x.id (g x)) st) b.id
      = (lookupRec st b.id).map (g b) := by
  induction batch generalizing st with
  | nil => cases hb
  | cons a rest ih =>
    rw [List.map_cons, List.nodup_cons] at hnd
    rcases List.mem_cons.mp hb with hba | hbr
    · subst hba
      have hnotm : ∀ x ∈ rest, x.id ≠ b.id := by
        intro x hx hEq
        exact hnd.1 (hEq ▸ List.mem_map_of_mem Item.id hx)
      rw [List.foldl_cons,
        foldl_updateRec_lookup_of_notmem g rest _ b.id hnotm]
      exact lookupRec_updateRec_self st b.id _
    · have hne : a.id ≠ b.id := by
        intro hEq
        exact hnd.1 (hEq ▸ List.mem_map_of_mem Item.id hbr)
      rw [List.foldl_cons, ih _ hnd.2 hbr,
        lookupRec_updateRec_ne st a.id b.id _ hne]

theorem foldl_updateRec_keys (g : Item → LifeRec → LifeRec)
    (batch : List Item) (st : Store) :
    (batch.foldl (fun s x => updateRec s x.id (g x)) st).map Prod.fst
      = st.map Prod.fst := by
  induction batch generalizing st with
  | nil => rfl
  | cons a rest ih => rw [List.foldl_cons, ih, keys_updateRec]

theorem foldl_updateRec_lookup_mapped (g : Item → LifeRec → LifeRec)
    (fld : LifeRec → Option Nat) (hf : ∀ x rc, fld (g x rc) = fld rc)
    (batch : List Item) (st : Store) (r : String) :
    (lookupRec (batch.foldl (fun s x => updateRec s x.id (g x)) st) r).map fld
      = (lookupRec st r).map fld := by
  induction batch generalizing st with
  | nil => rfl
  | cons a rest ih =>
    rw [List.foldl_cons, ih]
    by_cases h : a.id = r
    · subst h
      rw [lookupRec_updateRec_self]
      cases lookupRec st a.id with
      | none => rfl
      | some rc => simp [hf]
    · rw [lookupRec_updateRec_ne st a.id r _ h]

theorem fallbackStep_eq (singleCall : Item → Except String String) (now : Nat) :
    fallbackStep singleCall now
      = fun s x => updateRec s x.id (fallbackRec singleCall now x) := rfl

theorem markAllError_eq (batch : List Item) (msg : String) (st : Store) :
    markAllError batch msg st
      = batch.foldl (fun s x => updateRec s x.id (fun rc => markErrorRec rc msg)) st :=
  rfl

/-! ### Characterizing the greedy fallback regex -/

theorem get?_drop_eq (n : Nat) (cs : List Char) (m : Nat) :
    (cs.drop n).get? m = cs.get? (n + m) := by
  induction n generalizing cs with
  | zero => simp
  | succ n ih =>
    cases cs with
    | nil => simp
    | cons a rest =>
      rw [List.drop_succ_cons, ih rest]
      have hnm : n + 1 + m = (n + m) + 1 := by omega
      rw [hnm, List.get?_cons_succ]

theorem lastPos_none (c : Char) (cs : List Char) (h : lastPos c cs = none) :
    ∀ k, cs.get? k ≠ some c := by
  induction cs with
  | nil => intro k; simp
  | cons a rest ih =>
    intro k
    unfold lastPos at h
    match hrest : lastPos c rest with
    | some j => rw [hrest] at h; cases h
    | none =>
      rw [hrest] at h
      by_cases ha : a = c
      · rw [if_pos ha] at h; cases h
      · rw [if_neg ha] at h
        cases k with
        | zero =>
          simp only [List.get?_cons_zero]
          intro hc
          exact ha (Option.some.inj hc)
        | succ k => simpa using ih hrest k

theorem lastPos_spec (c : Char) (cs : List Char) (j : Nat)
    (h : lastPos c cs = some j) :
    cs.get? j = some c ∧ ∀ k, j < k → cs.get? k ≠ some c := by
  induction cs generalizing j with
  | nil => cases h
  | cons a rest ih =>
    unfold lastPos at h
    match hrest : lastPos c rest with
    | some j2 =>
      rw [hrest] at h
      cases h
      obtain ⟨h1, h2⟩ := ih j2 hrest
      refine ⟨by simpa using h1, ?_⟩
      intro k hk
      cases k with
      | zero => omega
      | succ k =>
        simp only [List.get?_cons_succ]
        exact h2 k (by omega)
    | none =>
      rw [hrest] at h
      by_cases ha : a = c
      · rw [if_pos ha] at h
        cases h
        refine ⟨by simpa using congrArg some ha, ?_⟩
        intro k hk
        cases k with
        | zero => omega
        | succ k => simpa using lastPos_none c rest hrest k
      · rw [if_neg ha] at h; cases h

/-- What a successful regex attempt at position `i` means: `i` holds an
opening delimiter, `j` holds the matching closing delimiter, and — the
greedy part — no closing delimiter of that kind occurs after `j`. -/
theorem matchAt_spec (cs : List Char) (i j : Nat) (h : matchAt cs i = some j) :
    i < j ∧ ((cs.get? i = some '\x7b' ∧ cs.get? j = some '\x7d'
        ∧ ∀ k, j < k → cs.get? k ≠ some '\x7d')
      ∨ (cs.get? i = some '[' ∧ cs.get? j = some ']'
        ∧ ∀ k, j < k → cs.get? k ≠ some ']')) := by
  unfold matchAt at h
  revert h
  cases hi : cs.get? i with
  | none => intro h; cases h
  | some c =>
    intro h
    simp only at h
    by_cases hb : c = '\x7b'
    · rw [if_pos hb] at h
      match hl : lastPos '\x7d' (cs.drop (i + 1)) with
      | none => rw [hl] at h; cases h
      | some j2 =>
        rw [hl] at h
        obtain rfl : j = i + 1 + j2 := by simpa using h.symm
        obtain ⟨h1, h2⟩ := lastPos_spec _ _ _ hl
        rw [get?_drop_eq] at h1
        refine ⟨by omega, Or.inl ⟨congrArg some hb, h1, ?_⟩⟩
        intro k hk hc
        have hk2 : (cs.drop (i + 1)).get? (k - (i + 1)) = some '\x7d' := by
          rw [get?_drop_eq]
          have : i + 1 + (k - (i + 1)) = k := by omega
          rw [this]
          exact hc
        exact h2 (k - (i + 1)) (by omega) hk2
    · rw [if_neg hb] at h
      by_cases hk : c = '['
      · rw [if_pos hk] at h
        match hl : lastPos ']' (cs.drop (i + 1)) with
        | none => rw [hl] at h; cases h
        | some j2 =>
          rw [hl] at h
          obtain rfl : j = i + 1 + j2 := by simpa using h.symm
          obtain ⟨h1, h2⟩ := lastPos_spec _ _ _ hl
          rw [get?_drop_eq] at h1
          refine ⟨by omega, Or.inr ⟨congrArg some hk, h1, ?_⟩⟩
          intro k2 hk2 hc
          have hk3 : (cs.drop (i + 1)).get? (k2 - (i + 1)) = some ']' := by
            rw [get?_drop_eq]
            have : i + 1 + (k2 - (i + 1)) = k2 := by omega
            rw [this]
            exact hc
          exact h2 (k2 - (i + 1)) (by omega) hk3
      · rw [if_neg hk] at h; cases h

/-- A successful scan returns the leftmost matching position at or after
the start. -/
theorem searchFrom_spec (cs : List Char) (fuel : Nat) :
    ∀ s i j, searchFrom cs s fuel = some (i, j) →
      s ≤ i ∧ matchAt cs i = some j ∧ ∀ k, s ≤ k → k < i → matchAt cs k = none := by
  induction fuel with
  | zero => intro s i j h; cases h
  | succ fuel ih =>
    intro s i j h
    unfold searchFrom at h
    match hm : matchAt cs s with
    | some j2 =>
      rw [hm] at h
      cases h
      exact ⟨Nat.le_refl s, hm, fun k hk1 hk2 => by omega⟩
    | none =>
      rw [hm] at h
      obtain ⟨h1, h2, h3⟩ := ih (s + 1) i j h
      refine ⟨by omega, h2, ?_⟩
      intro k hk1 hk2
      by_cases hks : k = s
      · exact hks ▸ hm
      · exact h3 k (by omega) hk2

/-! ### Shared batch-branch lemmas -/

/-- When the parse does not yield an array of exactly the batch length, the
worker runs the per-item fallback over the whole batch. -/
theorem processBatch_fallback (batch : List Item) (content : String)
    (singleCall : Item → Except String String) (now : Nat) (st : Store)
    (hno : ∀ l, extract_json_from_text content = some (Json.arr l) →
      l.length ≠ batch.length) :
    processBatch batch (.ok content) singleCall now st
      = batch.foldl (fallbackStep singleCall now) st := by
  match hpe : extract_json_from_text content with
  | none => simp only [processBatch, hpe]
  | some (Json.arr l) =>
    simp only [processBatch, hpe]
    rw [if_neg (hno l hpe)]
  | some Json.null => simp only [processBatch, hpe]
  | some (Json.bool b) => simp only [processBatch, hpe]
  | some (Json.num n) => simp only [processBatch, hpe]
  | some (Json.str t) => simp only [processBatch, hpe]
  | some (Json.obj f) => simp only [processBatch, hpe]

/-- When the parse yields an array of exactly the batch length and no
element raises, the worker's store update is the matched-element loop
(and does not depend on the single-call dispatcher). -/
theorem processBatch_matched (batch : List Item) (content : String)
    (singleCall : Item → Except String String) (now : Nat) (st : Store)
    (parsed : List Json)
    (hpe : extract_json_from_text content = some (Json.arr parsed))
    (hlen : parsed.length = batch.length)
    (hok : ∀ o ∈ parsed, elemOk o = true) :
    processBatch batch (.ok content) singleCall now st
      = (processMatched now parsed st).1 := by
  simp only [processBatch, hpe]
  rw [if_pos hlen, processMatched_eq_foldl now parsed st hok]

/-- When the parse yields an array of exactly the batch length and the
matched loop aborts (a non-dict element, or a truthy unhashable id), the
exception is caught and every batch item is error-marked over the partial
writes. -/
theorem processBatch_abort (batch : List Item) (content : String)
    (singleCall : Item → Except String String) (now : Nat) (st : Store)
    (parsed : List Json) (st2 : Store) (e : String)
    (hpe : extract_json_from_text content = some (Json.arr parsed))
    (hlen : parsed.length = batch.length)
    (hab : processMatched now parsed st = (st2, some e)) :
    processBatch batch (.ok content) singleCall now st
      = markAllError batch e st2 := by
  simp only [processBatch, hpe]
  rw [if_pos hlen, hab]

/-! ### Claims -/

/-- C9: `extract_json_from_text` is total at its public interface: every
input string yields either a decoded value or `None`.  In the embedding
every failure path of the source (undecodable whole string, unbalanced or
absent delimiter span, span that fails to decode) is an explicit `none`
value, never an uncaught exception. -/
theorem C9_extract_json_total (s : String) :
    extract_json_from_text s = none ∨ ∃ v, extract_json_from_text s = some v := by
  cases h : extract_json_from_text s with
  | none => exact Or.inl rfl
  | some v => exact Or.inr ⟨v, rfl⟩

/-- C8 counterexample: on `x \x7b"a": 1\x7d y \x7b"b": 2\x7d` the spec's
first-balanced-span scanner decodes `\x7b"a": 1\x7d`, but the source's
`extract_json_from_text` takes the greedy regex span from the first `\x7b`
to the LAST `\x7d` (which does not decode) and returns `None` — so the
claim that it decodes the first balanced span is false. -/
theorem C8_counterexample :
    extract_json_spec "x \x7b\"a\": 1\x7d y \x7b\"b\": 2\x7d"
        = some (Json.obj [("a", Json.num 1)])
    ∧ extract_json_from_text "x \x7b\"a\": 1\x7d y \x7b\"b\": 2\x7d" = none :=
  ⟨rfl, rfl⟩

/-- C8 (amended): parsing first attempts a direct decode of the whole
string; if that fails, the fallback decodes the span found by the greedy
regex: it starts at the leftmost position carrying a delimiter match and
ends at the LAST closing delimiter of that kind in the string (not at the
delimiter balancing the opener). -/
theorem C8_amended_greedy_span (s : String) (i j : Nat)
    (hd : json_loads s = none)
    (hs : searchGreedy s.data = some (i, j)) :
    extract_json_from_text s = json_loads (sliceStr s.data i j)
    ∧ (∀ k, k < i → matchAt s.data k = none)
    ∧ i < j
    ∧ ((s.data.get? i = some '\x7b' ∧ s.data.get? j = some '\x7d'
        ∧ ∀ k, j < k → s.data.get? k ≠ some '\x7d')
      ∨ (s.data.get? i = some '[' ∧ s.data.get? j = some ']'
        ∧ ∀ k, j < k → s.data.get? k ≠ some ']')) := by
  obtain ⟨h0, hm, hmin⟩ := searchFrom_spec s.data s.data.length 0 i j hs
  obtain ⟨hij, hdis⟩ := matchAt_spec s.data i j hm
  refine ⟨?_, fun k hk => hmin k (Nat.zero_le k) hk, hij, hdis⟩
  unfold extract_json_from_text
  rw [hd, hs]

/-- Witness for the amended C8 at a concrete prose-wrapped string. -/
theorem C8_amended_witness :
    extract_json_from_text "x \x7b1\x7d y \x7b2\x7d"
      = json_loads (sliceStr "x \x7b1\x7d y \x7b2\x7d".data 2 10) :=
  (C8_amended_greedy_span "x \x7b1\x7d y \x7b2\x7d" 2 10 rfl rfl).1

/-- C4: admission-time rejections are atomic.  An empty trimmed `text_blob`
is rejected as `empty_input` (HTTP 400) before anything is written; a
request that misses the cache while the queue size is at or above
`int(MAX_QUEUE_SIZE * BACKPRESSURE_THRESHOLD)` is rejected as `overloaded`
(HTTP 429); in both cases the state — Store, Queue and Cache — is returned
unchanged, so no lifecycle record is created and nothing is enqueued.
(The cache-miss hypothesis of the second part holds at every reachable
state: no code path ever writes the cache — see `C1_cache_never_written`'s
context — so `cacheGet` is always `none` in practice.) -/
theorem C4_admission_rejections_atomic (hash : String → String)
    (maxQ rhoN rhoD : Nat) (req : AnalyzeRequest) (rid : String) (now : Nat)
    (s : SysState) :
    (text_blob req = "" →
      analyze hash maxQ rhoN rhoD req rid now s = (.emptyInput, s))
    ∧ (text_blob req ≠ "" →
      cacheGet s.cache ("analyze:" ++ hash (text_blob req)) = none →
      s.queue.length ≥ admitThreshold maxQ rhoN rhoD →
      analyze hash maxQ rhoN rhoD req rid now s = (.overloaded, s)) := by
  constructor
  · intro hb
    simp [analyze, hb]
  · intro hb hc hq
    simp [analyze, hb, hc, hq]

/-- Witness for C4: a fully empty request is rejected 400 with the state
unchanged; with `MAX_QUEUE_SIZE = 0` (threshold 0) a non-empty request on
an empty queue is rejected 429 with the state unchanged. -/
theorem C4_witness :
    analyze (fun t => t) 5 9 10 ⟨none, none, none, none⟩ "r" 0 ⟨[], [], []⟩
      = (.emptyInput, ⟨[], [], []⟩)
    ∧ analyze (fun t => t) 0 9 10 ⟨some "T", none, none, none⟩ "r" 0 ⟨[], [], []⟩
      = (.overloaded, ⟨[], [], []⟩) :=
  ⟨(C4_admission_rejections_atomic (fun t => t) 5 9 10 ⟨none, none, none, none⟩
      "r" 0 ⟨[], [], []⟩).1 rfl,
   (C4_admission_rejections_atomic (fun t => t) 0 9 10 ⟨some "T", none, none, none⟩
      "r" 0 ⟨[], [], []⟩).2 (by decide) rfl (by decide)⟩

/-- C5: a cache hit in `analyze` allocates the fresh id, prepends a record
with `status = "done"`, `finished_at = queued_at = now` and the cached
object as result, answers `\x7brequest_id, status: "done", cached: true\x7d`,
and leaves the Queue (and Cache) untouched. -/
theorem C5_cache_hit (hash : String → String) (maxQ rhoN rhoD : Nat)
    (req : AnalyzeRequest) (rid : String) (now : Nat) (s : SysState) (v : Json)
    (hb : text_blob req ≠ "")
    (hc : cacheGet s.cache ("analyze:" ++ hash (text_blob req)) = some v) :
    analyze hash maxQ rhoN rhoD req rid now s
      = (.doneCached rid,
          { s with store := (rid, ⟨"done", now, some now, some v, none⟩) :: s.store }) := by
  simp [analyze, hb, hc]

/-- Witness for C5 at a concrete single-entry cache. -/
theorem C5_witness :
    analyze (fun t => t) 5 9 10 ⟨some "T", none, none, none⟩ "r" 7
        ⟨[], [], [("analyze:Title: T", Json.null)]⟩
      = (.doneCached "r",
          ⟨[("r", ⟨"done", 7, some 7, some Json.null, none⟩)], [],
            [("analyze:Title: T", Json.null)]⟩) :=
  C5_cache_hit (fun t => t) 5 9 10 ⟨some "T", none, none, none⟩ "r" 7
    ⟨[], [], [("analyze:Title: T", Json.null)]⟩ Json.null (by decide) rfl

/-! ### Concrete scenario values -/

/-- The `/analyze` request `\x7btitle: "T"\x7d`. -/
def reqT : AnalyzeRequest := ⟨some "T", none, none, none⟩

/-- The empty initial module state. -/
def emptyState : SysState := ⟨[], [], []⟩

/-- A well-formed batch response for the single request id "a". -/
def batchContentA : String :=
  "[\x7b\"id\": \"a\", \"summary\": \"s\", \"key_points\": [\"k\"], \"recommendation\": \"r\"\x7d]"

/-- The element carried by `batchContentA`. -/
def elemA : Json :=
  Json.obj [("id", Json.str "a"), ("summary", Json.str "s"),
    ("key_points", Json.arr [Json.str "k"]), ("recommendation", Json.str "r")]

example : extract_json_from_text batchContentA = some (Json.arr [elemA]) := rfl

/-- State after admitting `reqT` as request "a" (defaults
`MAX_QUEUE_SIZE = 100`, threshold 9/10; identity stands for the digest). -/
def stateAfterAdmit : SysState :=
  (analyze (fun t => t) 100 9 10 reqT "a" 0 emptyState).2

/-- State after a worker demultiplexes the batch response: the loop body
mutates the Store only (`app/worker.py` never references the cache
module), the dequeued item leaves the queue, the cache passes through
untouched. -/
def stateAfterWorker : SysState :=
  ⟨processBatch stateAfterAdmit.queue (.ok batchContentA)
      (fun _ => .error "unused") 3 stateAfterAdmit.store,
    [], stateAfterAdmit.cache⟩

/-- A store holding the single queued record "a". -/
def storeA : Store := [("a", ⟨"queued", 0, none, none, none⟩)]

/-- A store holding the queued records "a" and "b". -/
def storeAB : Store :=
  [("a", ⟨"queued", 0, none, none, none⟩), ("b", ⟨"queued", 0, none, none, none⟩)]

/-- The queued item of request "a". -/
def itemA : Item := ⟨"a", "text a", 0, "key a"⟩

/-- The queued item of request "b". -/
def itemB : Item := ⟨"b", "text b", 0, "key b"⟩

/-- C1: the claim says the worker, besides writing the Store, writes each
matched element into the Cache under the item's `cache_key`, so that an
identical resubmission within TTL is answered from the cache.  The code
does the Store write but never writes the Cache (`app/worker.py` does not
even import it, and no other code calls `cache.set`), so the cache stays
empty and the identical resubmission is enqueued again: after admitting
"a", demultiplexing a well-formed batch response for it, and resubmitting
the identical `text_blob`, the second response is `\x7bstatus: "queued"\x7d`,
not the claimed `\x7bstatus: "done", cached: true\x7d`. -/
theorem C1_cache_never_written :
    (analyze (fun t => t) 100 9 10 reqT "a" 0 emptyState).1 = .accepted "a"
    ∧ lookupRec stateAfterWorker.store "a"
        = some ⟨"done", 0, some 3, some elemA, none⟩
    ∧ stateAfterWorker.cache = []
    ∧ (analyze (fun t => t) 100 9 10 reqT "b" 4 stateAfterWorker).1
        = .accepted "b" :=
  ⟨rfl, rfl, rfl, rfl⟩

/-- A parsed element whose `id` value is the truthy (non-empty) list
`[1]` — unhashable in Python. -/
def objBadId : Json := Json.obj [("id", Json.arr [Json.num 1])]

/-- A batch response whose single element carries the unhashable id `[1]`. -/
def contentBadId : String := "[\x7b\"id\": [1]\x7d]"

example : extract_json_from_text contentBadId = some (Json.arr [objBadId]) := rfl

/-- C10 counterexample: the claim says an element whose id is not an
existing Store key is silently ignored, neither raising nor inserting.
An element whose id is the truthy list `[1]` (certainly not a Store key)
is NOT silently ignored: `rid in store` raises
`TypeError: unhashable type: list`, and the worker's outer handler then
error-marks the whole batch — here record "a", which the claim says
should have been left for the remaining pipeline. -/
theorem C10_counterexample :
    matchedStep 5 storeA objBadId = .error "TypeError: unhashable type: list"
    ∧ lookupRec (processBatch [itemA] (.ok contentBadId)
        (fun _ => .ok "ignored") 5 storeA) "a"
      = some ⟨"error", 0, none, none, some "TypeError: unhashable type: list"⟩ :=
  ⟨rfl, rfl⟩

/-- C10 (amended): workers never create Store entries, but not every
unknown id is silently ignored.  (i) The whole batch body preserves the
Store's key list exactly, whatever the upstream outcomes — no insert on
any path, the raising ones included; (ii) a parsed element that raises no
exception (an object whose truthy id is not a list/dict) and whose id is
missing, falsy, a hashable non-string, or a string that is not a Store
key, is silently ignored — the step succeeds and the store is unchanged;
(iii)/(iv) a parsed element whose id is a truthy list or dict raises
`TypeError` instead of being ignored (error-marking the whole batch);
(v) an `analyze` call either leaves the key list unchanged (rejections)
or prepends exactly the freshly allocated id — so the id set grows only
through admission. -/
theorem C10_amended_store_growth (batch : List Item)
    (batchCall : Except String String) (singleCall : Item → Except String String)
    (now : Nat) (st : Store) :
    ((processBatch batch batchCall singleCall now st).map Prod.fst
        = st.map Prod.fst)
    ∧ (∀ o : Json, elemOk o = true →
        (∀ r, elemId o = some r → hasKey st r = false) →
        matchedStep now st o = .ok st)
    ∧ (∀ (fields : List (String × Json)) (l : List Json),
        jget fields "id" = some (Json.arr l) →
        jsonTruthy (Json.arr l) = true →
        matchedStep now st (Json.obj fields)
          = .error "TypeError: unhashable type: list")
    ∧ (∀ (fields f : List (String × Json)),
        jget fields "id" = some (Json.obj f) →
        jsonTruthy (Json.obj f) = true →
        matchedStep now st (Json.obj fields)
          = .error "TypeError: unhashable type: dict")
    ∧ (∀ (hash : String → String) (maxQ rhoN rhoD : Nat) (req : AnalyzeRequest)
        (rid : String) (s2 : SysState),
        ((analyze hash maxQ rhoN rhoD req rid now s2).2.store.map Prod.fst
            = s2.store.map Prod.fst)
        ∨ ((analyze hash maxQ rhoN rhoD req rid now s2).2.store.map Prod.fst
            = rid :: s2.store.map Prod.fst)) := by
  refine ⟨?_, ?_, ?_, ?_, ?_⟩
  · match batchCall with
    | .error e =>
      simp only [processBatch, markAllError_eq]
      exact foldl_updateRec_keys _ batch st
    | .ok content =>
      match hpe : extract_json_from_text content with
      | none =>
        simp only [processBatch, hpe, fallbackStep_eq]
        exact foldl_updateRec_keys _ batch st
      | some (Json.arr parsed) =>
        simp only [processBatch, hpe]
        by_cases hlen : parsed.length = batch.length
        · rw [if_pos hlen]
          match hpm : processMatched now parsed st with
          | (st2, none) =>
            have := processMatched_keys now parsed st
            rw [hpm] at this
            exact this
          | (st2, some e) =>
            have h2 := processMatched_keys now parsed st
            rw [hpm] at h2
            show (markAllError batch e st2).map Prod.fst = st.map Prod.fst
            rw [markAllError_eq, foldl_updateRec_keys _ batch st2]
            exact h2
        · rw [if_neg hlen, fallbackStep_eq]
          exact foldl_updateRec_keys _ batch st
      | some Json.null =>
        simp only [processBatch, hpe, fallbackStep_eq]
        exact foldl_updateRec_keys _ batch st
      | some (Json.bool b) =>
        simp only [processBatch, hpe, fallbackStep_eq]
        exact foldl_updateRec_keys _ batch st
      | some (Json.num n) =>
        simp only [processBatch, hpe, fallbackStep_eq]
        exact foldl_updateRec_keys _ batch st
      | some (Json.str t) =>
        simp only [processBatch, hpe, fallbackStep_eq]
        exact foldl_updateRec_keys _ batch st
      | some (Json.obj f) =>
        simp only [processBatch, hpe, fallbackStep_eq]
        exact foldl_updateRec_keys _ batch st
  · intro o hOk hNo
    rw [matchedStep_ok_of_elemOk now st o hOk]
    congr 1
    unfold matchedWrite
    match he : elemId o with
    | none => rfl
    | some r =>
      show (if hasKey st r = true then
          updateRec st r (fun rc => markDoneRec rc o now) else st) = st
      rw [hNo r he]
      simp
  · intro fields l hj ht
    simp only [matchedStep, hj]
    rw [if_pos ht]
  · intro fields f hj ht
    simp only [matchedStep, hj]
    rw [if_pos ht]
  · intro hash maxQ rhoN rhoD req rid s2
    by_cases hb : text_blob req = ""
    · left; simp [analyze, hb]
    · match hc : cacheGet s2.cache ("analyze:" ++ hash (text_blob req)) with
      | some v => right; simp [analyze, hb, hc]
      | none =>
        by_cases hq : s2.queue.length ≥ admitThreshold maxQ rhoN rhoD
        · left; simp [analyze, hb, hc, hq]
        · right; simp [analyze, hb, hc, hq]

/-- Witness for the amended C10: a parsed element naming the unknown
string id "b" is silently ignored — the step succeeds with the
single-record store exactly as it was. -/
theorem C10_witness :
    matchedStep 5 storeA (Json.obj [("id", Json.str "b")]) = .ok storeA :=
  (C10_amended_store_growth [] (.error "x") (fun _ => .error "x") 5 storeA).2.1
    (Json.obj [("id", Json.str "b")]) rfl (fun r h => by cases h; rfl)

/-- No element of the array writes under `r` exactly when `lastMatch` finds
nothing. -/
theorem lastMatch_eq_none (r : String) (parsed : List Json)
    (h : ∀ o ∈ parsed, elemId o ≠ some r) : lastMatch r parsed = none := by
  induction parsed with
  | nil => rfl
  | cons o rest ih =>
    unfold lastMatch
    simp only [ih (fun x hx => h x (List.mem_cons_of_mem o hx))]
    rw [if_neg (h o (List.mem_cons_self o rest))]

/-- A batch response whose two elements both carry id "a" while the batch
is `[itemA, itemB]`. -/
def contentDupA : String :=
  "[\x7b\"id\": \"a\", \"summary\": \"s1\"\x7d, \x7b\"id\": \"a\", \"summary\": \"s2\"\x7d]"

/-- C2 counterexample: the parsed array has exactly the batch length (2)
but item "b"'s id appears in no element, and the claim says such an item
is resolved by a per-item single call — yet even with a single-call
dispatcher that would succeed, the code leaves "b" in its untouched
`queued` record: no per-item fallback runs when the array has the right
length. -/
theorem C2_counterexample :
    lookupRec (processBatch [itemA, itemB] (.ok contentDupA)
        (fun _ => .ok "\x7b\"summary\": \"w\"\x7d") 9 storeAB) "b"
      = some ⟨"queued", 0, none, none, none⟩ := rfl

/-- C2 (amended): when the batch response parses to an array of exactly
the batch length whose elements raise no exception (objects without
truthy list/dict ids), attribution is by the `id` field and not by
position — permuting the array (ids pairwise distinct) produces the same
store, and the outcome does not depend on the single-call dispatcher; an
item whose id appears in no element keeps its record unchanged (it is NOT
resolved per-item); the per-item fallback runs over the whole batch
exactly when parsing does not yield an array of the batch length; and an
exact-length array on which the matched loop raises (a non-dict element,
or an element whose truthy id is an unhashable list/dict) instead
error-marks the whole batch over the partial writes. -/
theorem C2_amended_id_matching (now : Nat) (st : Store) :
    (∀ parsed parsed2 : List Json, (∀ o ∈ parsed, elemOk o = true) →
      parsed.Pairwise (fun a b => ∀ r : String,
        ¬(elemId a = some r ∧ elemId b = some r)) →
      parsed.Perm parsed2 →
      (processMatched now parsed st).1 = (processMatched now parsed2 st).1)
    ∧ (∀ (parsed : List Json) (r : String), (∀ o ∈ parsed, elemOk o = true) →
        (∀ o ∈ parsed, elemId o ≠ some r) →
        lookupRec (processMatched now parsed st).1 r = lookupRec st r)
    ∧ (∀ (parsed : List Json) (batch : List Item) (content : String)
        (singleCall : Item → Except String String),
        (∀ o ∈ parsed, elemOk o = true) →
        extract_json_from_text content = some (Json.arr parsed) →
        parsed.length = batch.length →
        processBatch batch (.ok content) singleCall now st
          = (processMatched now parsed st).1)
    ∧ (∀ (batch : List Item) (content : String)
        (singleCall : Item → Except String String),
        (∀ l, extract_json_from_text content = some (Json.arr l) →
          l.length ≠ batch.length) →
        processBatch batch (.ok content) singleCall now st
          = batch.foldl (fallbackStep singleCall now) st)
    ∧ (∀ (parsed : List Json) (batch : List Item) (content : String)
        (singleCall : Item → Except String String) (st2 : Store) (e : String),
        extract_json_from_text content = some (Json.arr parsed) →
        parsed.length = batch.length →
        processMatched now parsed st = (st2, some e) →
        processBatch batch (.ok content) singleCall now st
          = markAllError batch e st2) := by
  refine ⟨?_, ?_, ?_, ?_, ?_⟩
  · intro parsed parsed2 hok hdis hperm
    have hok2 : ∀ o ∈ parsed2, elemOk o = true :=
      fun o ho => hok o (hperm.mem_iff.mpr ho)
    rw [processMatched_eq_foldl now parsed st hok,
      processMatched_eq_foldl now parsed2 st hok2]
    show parsed.foldl (matchedWrite now) st = parsed2.foldl (matchedWrite now) st
    have hsym : Symmetric (fun a b : Json => ∀ r : String,
        ¬(elemId a = some r ∧ elemId b = some r)) :=
      fun a b hab r hr => hab r ⟨hr.2, hr.1⟩
    have hall := hdis.forall hsym
    exact foldl_perm_of_comm hperm
      (fun x hx y hy z => by
        by_cases hxy : x = y
        · subst hxy; rfl
        · exact matchedWrite_comm now z x y (hall hx hy hxy)) st
  · intro parsed r hok hnone
    rw [processMatched_eq_foldl now parsed st hok]
    show lookupRec (parsed.foldl (matchedWrite now) st) r = lookupRec st r
    rw [foldl_matchedWrite_lookup now parsed st r,
      lastMatch_eq_none r parsed hnone]
  · intro parsed batch content singleCall hok hpe hlen
    exact processBatch_matched batch content singleCall now st parsed hpe hlen hok
  · intro batch content singleCall hno
    exact processBatch_fallback batch content singleCall now st hno
  · intro parsed batch content singleCall st2 e hpe hlen hab
    exact processBatch_abort batch content singleCall now st parsed st2 e hpe hlen hab

/-- Witness for the amended C2: a one-element batch with a well-formed
one-element response resolves through the matched loop, independently of
the single-call dispatcher. -/
theorem C2_witness :
    processBatch [itemA] (.ok batchContentA) (fun _ => .error "u") 9 storeA
      = (processMatched 9 [elemA] storeA).1 :=
  (C2_amended_id_matching 9 storeA).2.2.1 [elemA] [itemA]
    batchContentA (fun _ => .error "u") (by decide) rfl rfl

/-- First element written for id "a" in the duplicate-id scenario. -/
def objA1 : Json := Json.obj [("id", Json.str "a"), ("summary", Json.str "x")]

/-- Second element written for id "a" in the duplicate-id scenario. -/
def objA2 : Json := Json.obj [("id", Json.str "a"), ("summary", Json.str "y")]

/-- C3 counterexample: after the first matched write, record "a" is
terminal (`status = "done"`, result `objA1`); the second matched write
against that already-terminal record is not a no-op — it replaces the
result with `objA2` and bumps `finished_at` — refuting the claim that a
terminal status is reached at most once and terminal records are immune
to later writes. -/
theorem C3_counterexample :
    lookupRec (processMatched 5 [objA1] storeA).1 "a"
      = some ⟨"done", 0, some 5, some objA1, none⟩
    ∧ lookupRec (processMatched 7 [objA2] (processMatched 5 [objA1] storeA).1).1 "a"
      = some ⟨"done", 0, some 7, some objA2, none⟩ :=
  ⟨rfl, rfl⟩

/-- C3 (amended): the worker's terminal writes carry no guard.  Over a
matched-element loop that raises no exception, the record under `r` ends
as `done` holding the LAST element bearing id `r` — earlier writes,
including ones that already made the record terminal, are overwritten —
and is untouched only when no element bears its id; and the batch-error
loop rewrites every batch record to `error` unconditionally, terminal or
not (keeping whatever result was there). -/
theorem C3_amended_last_write_wins (now : Nat) (st : Store) :
    (∀ (parsed : List Json) (r : String), (∀ o ∈ parsed, elemOk o = true) →
      lookupRec (processMatched now parsed st).1 r
        = match lastMatch r parsed with
          | some o => (lookupRec st r).map (fun rc => markDoneRec rc o now)
          | none => lookupRec st r)
    ∧ (∀ (batch : List Item) (msg : String) (b : Item),
        (batch.map Item.id).Nodup → b ∈ batch →
        lookupRec (markAllError batch msg st) b.id
          = (lookupRec st b.id).map (fun rc => markErrorRec rc msg)) := by
  constructor
  · intro parsed r hok
    rw [processMatched_eq_foldl now parsed st hok]
    exact foldl_matchedWrite_lookup now parsed st r
  · intro batch msg b hnd hb
    rw [markAllError_eq]
    exact foldl_updateRec_lookup (fun _ rc => markErrorRec rc msg) batch st b hnd hb

/-- Witness for the amended C3 at the duplicate-id array. -/
theorem C3_witness :
    lookupRec (processMatched 5 [objA1, objA2] storeA).1 "a"
      = some ⟨"done", 0, some 5, some objA2, none⟩ :=
  ((C3_amended_last_write_wins 5 storeA).1 [objA1, objA2] "a" (by decide)).trans rfl

/-- C6 counterexample: the single call returns `"\x7b\x7d"`, which parses
successfully to the empty object — yet because the empty dict is falsy in
Python (`parsed_single or \x7b"raw": out\x7d`), the stored result is the raw
wrapper, not the parsed object, refuting "with the parsed object as result
when parsing succeeds". -/
theorem C6_counterexample :
    extract_json_from_text "\x7b\x7d" = some (Json.obj [])
    ∧ lookupRec (processBatch [itemA] (.ok "prose")
        (fun _ => .ok "\x7b\x7d") 9 storeA) "a"
      = some ⟨"done", 0, some 9,
          some (Json.obj [("raw", Json.str "\x7b\x7d")]), none⟩ :=
  ⟨rfl, rfl⟩

/-- C6 (amended): an item resolved by the per-item fallback whose single
call succeeds always terminates `done` (never `error`), with the parsed
value as result when parsing yields a TRUTHY value, and with
`\x7b"raw": <content>\x7d` when parsing fails or yields a falsy value
(`None`, `\x7b\x7d`, `[]`, `0`, `""`, `false`). -/
theorem C6_amended_fallback_done (batch : List Item) (content : String)
    (singleCall : Item → Except String String) (now : Nat) (st : Store)
    (b : Item) (out : String) (rc0 : LifeRec)
    (hnl : ∀ l, extract_json_from_text content = some (Json.arr l) →
      l.length ≠ batch.length)
    (hnd : (batch.map Item.id).Nodup) (hb : b ∈ batch)
    (hok : singleCall b = .ok out)
    (hrc : lookupRec st b.id = some rc0) :
    lookupRec (processBatch batch (.ok content) singleCall now st) b.id
      = some (markDoneRec rc0 (fallbackResult out) now)
    ∧ (markDoneRec rc0 (fallbackResult out) now).status = "done"
    ∧ (markDoneRec rc0 (fallbackResult out) now).finished_at = some now
    ∧ (∀ v, extract_json_from_text out = some v → jsonTruthy v = true →
        fallbackResult out = v)
    ∧ (extract_json_from_text out = none →
        fallbackResult out = Json.obj [("raw", Json.str out)]) := by
  refine ⟨?_, rfl, rfl, ?_, ?_⟩
  · rw [processBatch_fallback batch content singleCall now st hnl, fallbackStep_eq,
      foldl_updateRec_lookup (fallbackRec singleCall now) batch st b hnd hb, hrc]
    show some (fallbackRec singleCall now b rc0) = _
    unfold fallbackRec
    rw [hok]
  · intro v hv ht
    simp only [fallbackResult, hv]
    rw [if_pos ht]
  · intro hn
    simp only [fallbackResult, hn]

/-- Witness for the amended C6: unparseable single-call content ends as a
`done` record wrapping the raw output. -/
theorem C6_witness :
    lookupRec (processBatch [itemA] (.ok "prose")
        (fun _ => .ok "no json here") 9 storeA) "a"
      = some (markDoneRec ⟨"queued", 0, none, none, none⟩
          (fallbackResult "no json here") 9) :=
  (C6_amended_fallback_done [itemA] "prose" (fun _ => .ok "no json here") 9
      storeA itemA "no json here" ⟨"queued", 0, none, none, none⟩
      (fun l hl => by
        rw [show extract_json_from_text "prose" = none from rfl] at hl
        cases hl)
      (by decide) (List.mem_singleton_self _) rfl rfl).1

/-- C7 counterexample: a failed batch call marks "a" terminal
(`status = "error"`) with `finished_at` still `None` — terminal error
records do NOT get a `finished_at`, refuting the claim. -/
theorem C7_counterexample :
    lookupRec (processBatch [itemA] (.error "boom")
        (fun _ => .error "x") 9 storeA) "a"
      = some ⟨"error", 0, none, none, some "boom"⟩ := rfl

/-- C7 (amended): the done-write sets `finished_at` to the write time, but
the error-write sets only `status` and `error` and leaves `finished_at`
exactly as it was — so a record going `queued → error` keeps
`finished_at = None` at its terminal state, and the batch-error loop
changes no record's `finished_at`. -/
theorem C7_amended_error_keeps_finished_at (rc : LifeRec) (res : Json)
    (msg : String) (now : Nat) (batch : List Item) (st : Store) (r : String) :
    (markDoneRec rc res now).status = "done"
    ∧ (markDoneRec rc res now).finished_at = some now
    ∧ (markErrorRec rc msg).status = "error"
    ∧ (markErrorRec rc msg).finished_at = rc.finished_at
    ∧ ((lookupRec (markAllError batch msg st) r).map LifeRec.finished_at
        = (lookupRec st r).map LifeRec.finished_at) := by
  refine ⟨rfl, rfl, rfl, rfl, ?_⟩
  rw [markAllError_eq]
  exact foldl_updateRec_lookup_mapped (fun _ rc2 => markErrorRec rc2 msg)
    LifeRec.finished_at (fun x rc2 => rfl) batch st r

end AgentSpec
